import Mathlib

/-!
Verification of the DRA resource reconciliation (`GetK8sResources` in
pkg/client) as a shallow embedding in Lean.  Kubernetes quantities are
modelled as integers (the code only copies, adds, subtracts and compares
them), Go maps as association lists in insertion order (a deterministic
refinement of Go's unspecified iteration order), and a runtime panic as
`Option.none`.
-/

namespace K8sDRA

/-- Association-list lookup, mirroring Go map indexing with an ok-flag. -/
def lookupA {α : Type} (k : String) : List (String × α) → Option α
  | [] => none
  | e :: rest => if e.1 = k then some e.2 else lookupA k rest

/-- Association-list write, mirroring Go map assignment `m[k] = v`: the
first entry with key `k` is replaced in place, a new key is appended. -/
def insertA {α : Type} (k : String) (v : α) : List (String × α) → List (String × α)
  | [] => [(k, v)]
  | e :: rest => if e.1 = k then (k, v) :: rest else e :: insertA k v rest

/-- Keys of an association list. -/
def keysA {α : Type} (l : List (String × α)) : List String := l.map Prod.fst

/-- `resource.Quantity` modelled as an exact integer. -/
abbrev Quantity := Int

/-- `corev1.ResourceList`: resource name to quantity. -/
abbrev ResourceList := List (String × Quantity)

/-- The resource names the code reads (`corev1.ResourceCPU` etc.). -/
def cpuName : String := "cpu"

def memoryName : String := "memory"

def storageName : String := "storage"

def roleMarker : String := "node-role.kubernetes.io/"

def nvidiaDriver : String := "gpu.nvidia.com"

def productNameAttr : String := "productName"

/-- `corev1.Node`: the fields read by the code. -/
structure K8sNode where
  name : String
  labels : List (String × String)
  capacity : ResourceList
  allocatable : ResourceList
deriving Repr, DecidableEq

/-- `corev1.Container`: only `Resources.Requests` is read. -/
structure Container where
  requests : ResourceList
deriving Repr, DecidableEq

/-- `corev1.Pod`: only `Spec.NodeName` and `Spec.Containers` are read. -/
structure Pod where
  nodeName : String
  containers : List Container
deriving Repr, DecidableEq

/-- `resourcev1beta1.DeviceAttribute`: only the string variant is read by
the code; `stringValue = none` models a nil `StringValue` pointer. -/
structure DeviceAttribute where
  stringValue : Option String
deriving Repr, DecidableEq

/-- `resourcev1beta1.BasicDevice`: attributes and capacity maps. -/
structure BasicDevice where
  attributes : List (String × DeviceAttribute)
  capacity : List (String × Quantity)
deriving Repr, DecidableEq

/-- `resourcev1beta1.Device`: `basic = none` models `Basic == nil`. -/
structure Device where
  name : String
  basic : Option BasicDevice
deriving Repr, DecidableEq

/-- `resourcev1beta1.ResourceSlice`, flattened to the spec fields the code
reads: `Spec.NodeName`, `Spec.Driver`, `Spec.Pool.Name`, `Spec.Devices`. -/
structure ResourceSlice where
  nodeName : String
  driver : String
  poolName : String
  devices : List Device
deriving Repr, DecidableEq

/-- `resourcev1beta1.DeviceRequestAllocationResult`. -/
structure DeviceRequestAllocationResult where
  driver : String
  pool : String
  device : String
deriving Repr, DecidableEq

/-- `resourcev1beta1.ResourceClaim`: `allocation = none` models
`Status.Allocation == nil`; otherwise the list holds
`Status.Allocation.Devices.Results`. -/
structure ResourceClaim where
  allocation : Option (List DeviceRequestAllocationResult)
deriving Repr, DecidableEq

namespace types

/-- `types.Device`: the per-node device summary. -/
structure Device where
  productName : String
  totalCount : Int
  availableCount : Int
  memory : Quantity
deriving Repr, DecidableEq

/-- `types.NodeCapacity`. -/
structure NodeCapacity where
  totalCPU : Quantity
  availableCPU : Quantity
  totalMemory : Quantity
  availableMemory : Quantity
  totalStorage : Quantity
  availableStorage : Quantity
deriving Repr, DecidableEq

/-- `types.NodeInfo`. -/
structure NodeInfo where
  nodeName : String
  nodeRole : String
  nodeCapacity : NodeCapacity
  devices : List Device
deriving Repr, DecidableEq

end types

/-- One `requestedResources[node][res]` update: first occurrence stores the
quantity, a later one adds to the stored one. -/
def addRequest (rl : ResourceList) (resName : String) (q : Quantity) : ResourceList :=
  match lookupA resName rl with
  | none => insertA resName q rl
  | some existing => insertA resName (existing + q) rl

/-- Fold one pod into `requestedResources`; a pod with empty `Spec.NodeName`
is skipped entirely. -/
def aggregatePod (req : List (String × ResourceList)) (pod : Pod) :
    List (String × ResourceList) :=
  if pod.nodeName = "" then req
  else
    let init : ResourceList :=
      match lookupA pod.nodeName req with
      | none => []
      | some rl => rl
    let rl := pod.containers.foldl
      (fun rl c => c.requests.foldl (fun rl e => addRequest rl e.1 e.2) rl) init
    insertA pod.nodeName rl req

/-- The `requestedResources` table: per node, summed container requests. -/
def buildDemand (pods : List Pod) : List (String × ResourceList) :=
  pods.foldl aggregatePod []

/-- Insert a device name into a `map[string]bool` used as a set. -/
def insertSet (d : String) (s : List String) : List String :=
  if d ∈ s then s else s ++ [d]

/-- The string-concatenated composite key `driver + "-" + pool`. -/
def sliceKey (driver pool : String) : String := driver ++ "-" ++ pool

/-- Fold one allocation result into `allocatedDevices`. -/
def addAllocation (acc : List (String × List String))
    (ads : DeviceRequestAllocationResult) : List (String × List String) :=
  let sliceIdentifier := sliceKey ads.driver ads.pool
  let s := match lookupA sliceIdentifier acc with
    | none => []
    | some s => s
  insertA sliceIdentifier (insertSet ads.device s) acc

/-- Fold one claim into `allocatedDevices`: nothing when unallocated. -/
def addClaim (acc : List (String × List String)) (rc : ResourceClaim) :
    List (String × List String) :=
  match rc.allocation with
  | none => acc
  | some results =>
    if results.length > 0 then results.foldl addAllocation acc else acc

/-- The `allocatedDevices` index built from the resource claims. -/
def buildAllocated (claims : List ResourceClaim) : List (String × List String) :=
  claims.foldl addClaim []

/-- `allocatedDevices[k][d]`: false when either map level misses. -/
def allocLookup (alloc : List (String × List String)) (k d : String) : Bool :=
  match lookupA k alloc with
  | none => false
  | some s => decide (d ∈ s)

/-- Go map indexing into a ResourceList: zero quantity when absent. -/
def getQuantity (rl : ResourceList) (r : String) : Quantity :=
  match lookupA r rl with
  | none => 0
  | some q => q

/-- Role extraction: suffix of the first label key carrying the role
marker, else the literal `<none>`. -/
def nodeRole (labels : List (String × String)) : String :=
  match labels.find? (fun kv => kv.1.startsWith roleMarker) with
  | none => "<none>"
  | some kv => kv.1.drop roleMarker.length

/-- The per-node skeleton record: role, capacity fields, empty devices.
Available quantities start from allocatable and subtract the demand-table
entry when both the node entry and the resource entry exist. -/
def resolveNode (requestedResources : List (String × ResourceList))
    (node : K8sNode) : types.NodeInfo :=
  let availableCPU := getQuantity node.allocatable cpuName
  let availableMemory := getQuantity node.allocatable memoryName
  let availableStorage := getQuantity node.allocatable storageName
  let avail :=
    match lookupA node.name requestedResources with
    | none => (availableCPU, availableMemory, availableStorage)
    | some reqs =>
      ( match lookupA cpuName reqs with
        | none => availableCPU
        | some q => availableCPU - q,
        match lookupA memoryName reqs with
        | none => availableMemory
        | some q => availableMemory - q,
        match lookupA storageName reqs with
        | none => availableStorage
        | some q => availableStorage - q )
  { nodeName := node.name
    nodeRole := nodeRole node.labels
    nodeCapacity :=
      { totalCPU := getQuantity node.capacity cpuName
        availableCPU := avail.1
        totalMemory := getQuantity node.capacity memoryName
        availableMemory := avail.2.1
        totalStorage := getQuantity node.capacity storageName
        availableStorage := avail.2.2 }
    devices := [] }

/-- Fold one node into the `nodeMap`. -/
def addNode (requestedResources : List (String × ResourceList))
    (m : List (String × types.NodeInfo)) (node : K8sNode) :
    List (String × types.NodeInfo) :=
  insertA node.name (resolveNode requestedResources node) m

/-- The `nodeMap` keyed by node name. -/
def buildNodeMap (requestedResources : List (String × ResourceList))
    (nodes : List K8sNode) : List (String × types.NodeInfo) :=
  nodes.foldl (addNode requestedResources) []

/-- Display-name resolution for one device.  `none` models the nil
`StringValue` pointer dereference panic in the Go code. -/
def resolveProductName (driver : String) (dev : Device) : Option String :=
  if driver = nvidiaDriver then
    match dev.basic with
    | none => some driver
    | some b =>
      match lookupA productNameAttr b.attributes with
      | none => some driver
      | some attr => attr.stringValue
  else some driver

/-- Device memory: the `"memory"` capacity entry when declared, else zero. -/
def deviceMemory (dev : Device) : Quantity :=
  match dev.basic with
  | none => 0
  | some b =>
    match lookupA memoryName b.capacity with
    | none => 0
    | some v => v

/-- Tally one device occurrence into the per-slice `deviceMap`: first
occurrence of the product name initializes the entry, a later one
increments both counts. -/
def tallyDevice (productName : String) (memory : Quantity)
    (deviceMap : List (String × types.Device)) : List (String × types.Device) :=
  match lookupA productName deviceMap with
  | none =>
    insertA productName
      { productName := productName, totalCount := 1, availableCount := 1, memory := memory }
      deviceMap
  | some d =>
    insertA productName
      { d with totalCount := d.totalCount + 1, availableCount := d.availableCount + 1 }
      deviceMap

/-- When the device is allocated, reduce the available count by 1 (the
source guards the decrement with `AvailableCount > 0`). -/
def decrementIfAllocated (allocated : Bool) (productName : String)
    (deviceMap : List (String × types.Device)) : List (String × types.Device) :=
  if allocated then
    match lookupA productName deviceMap with
    | none => deviceMap
    | some d =>
      insertA productName
        (if d.availableCount > 0 then { d with availableCount := d.availableCount - 1 } else d)
        deviceMap
  else deviceMap

/-- Fold one inventory device into the per-slice `deviceMap` (keyed by
product name): tally total/available, then decrement available when the
device name is in the allocation index under the slice's composite key. -/
def processDevice (alloc : List (String × List String)) (sliceIdentifier driver : String)
    (deviceMap : List (String × types.Device)) (dev : Device) :
    Option (List (String × types.Device)) :=
  match resolveProductName driver dev with
  | none => none
  | some productName =>
    some (decrementIfAllocated (allocLookup alloc sliceIdentifier dev.name) productName
      (tallyDevice productName (deviceMemory dev) deviceMap))

/-- Fold all devices of one slice into a `deviceMap`. -/
def foldDevices (alloc : List (String × List String)) (sliceIdentifier driver : String)
    (deviceMap : List (String × types.Device)) :
    List Device → Option (List (String × types.Device))
  | [] => some deviceMap
  | dev :: rest =>
    match processDevice alloc sliceIdentifier driver deviceMap dev with
    | none => none
    | some dm => foldDevices alloc sliceIdentifier driver dm rest

/-- Fold one resource slice into the node map: a slice whose node is
unknown is dropped; otherwise its fresh per-slice `deviceMap` values are
appended to the owning record's devices. -/
def processSlice (alloc : List (String × List String))
    (nodeMap : List (String × types.NodeInfo)) (rs : ResourceSlice) :
    Option (List (String × types.NodeInfo)) :=
  match lookupA rs.nodeName nodeMap with
  | none => some nodeMap
  | some nodeInfo =>
    match foldDevices alloc (sliceKey rs.driver rs.poolName) rs.driver [] rs.devices with
    | none => none
    | some dm =>
      some (insertA rs.nodeName
        { nodeInfo with devices := nodeInfo.devices ++ dm.map Prod.snd } nodeMap)

/-- Fold all resource slices into the node map. -/
def foldSlices (alloc : List (String × List String))
    (nodeMap : List (String × types.NodeInfo)) :
    List ResourceSlice → Option (List (String × types.NodeInfo))
  | [] => some nodeMap
  | rs :: rest =>
    match processSlice alloc nodeMap rs with
    | none => none
    | some m => foldSlices alloc m rest

/-- The pure body of `GetK8sResources` after the four fetches succeed;
`none` models a runtime panic. -/
def reconcile (nodes : List K8sNode) (resourceSlices : List ResourceSlice)
    (resourceClaims : List ResourceClaim) (pods : List Pod) :
    Option (List types.NodeInfo) :=
  let requestedResources := buildDemand pods
  let allocatedDevices := buildAllocated resourceClaims
  let nodeMap := buildNodeMap requestedResources nodes
  match foldSlices allocatedDevices nodeMap resourceSlices with
  | none => none
  | some m => some (m.map Prod.snd)

/-- `GetK8sResources`, with the four fetch results as parameters: each
fetch error is returned as-is, in fetch order, before any computation. -/
def GetK8sResources (nodes : Except String (List K8sNode))
    (resourceSlices : Except String (List ResourceSlice))
    (resourceClaims : Except String (List ResourceClaim))
    (pods : Except String (List Pod)) : Except String (Option (List types.NodeInfo)) :=
  match nodes with
  | .error e => .error e
  | .ok ns =>
    match resourceSlices with
    | .error e => .error e
    | .ok ss =>
      match resourceClaims with
      | .error e => .error e
      | .ok cs =>
        match pods with
        | .error e => .error e
        | .ok ps => .ok (reconcile ns ss cs ps)

/-- Spec-worded demand: requested quantity of resource `r` in one
container (zero when absent; duplicate entries summed). -/
def containerReq (c : Container) (r : String) : Quantity :=
  ((c.requests.filter (fun e => e.1 = r)).map Prod.snd).sum

/-- Spec-worded demand: straight sum over all containers of a pod. -/
def podReq (p : Pod) (r : String) : Quantity :=
  (p.containers.map (fun c => containerReq c r)).sum

/-- Spec-worded demand: sum over all pods assigned to node `n`. -/
def demandSum (pods : List Pod) (n r : String) : Quantity :=
  ((pods.filter (fun p => p.nodeName = n)).map (fun p => podReq p r)).sum

/-- Demand-table lookup with zero default. -/
def demandOf (req : List (String × ResourceList)) (n r : String) : Quantity :=
  match lookupA n req with
  | none => 0
  | some rl => getQuantity rl r

/-- The allocation results carried by a claim (empty when unallocated). -/
def resultsOf (rc : ResourceClaim) : List DeviceRequestAllocationResult :=
  match rc.allocation with
  | none => []
  | some rs => rs

/-- `v'` is `v` with the same identity and capacity fields and possibly
more devices appended (how `foldSlices` evolves a node record). -/
def extendsNI (v v' : types.NodeInfo) : Prop :=
  v'.nodeName = v.nodeName ∧ v'.nodeRole = v.nodeRole ∧
  v'.nodeCapacity = v.nodeCapacity ∧ ∃ ds, v'.devices = v.devices ++ ds

@[simp]
theorem keysA_nil {α : Type} : keysA ([] : List (String × α)) = [] := rfl

@[simp]
theorem keysA_cons {α : Type} (e : String × α) (l : List (String × α)) :
    keysA (e :: l) = e.1 :: keysA l := rfl

theorem mem_keysA_of_mem {α : Type} {k : String} {v : α} {l : List (String × α)}
    (h : (k, v) ∈ l) : k ∈ keysA l :=
  List.mem_map_of_mem Prod.fst h

theorem lookupA_insertA {α : Type} (k r : String) (v : α) (l : List (String × α)) :
    lookupA r (insertA k v l) = if k = r then some v else lookupA r l := by
  induction l with
  | nil => rfl
  | cons e rest ih =>
    by_cases he : e.1 = k
    · rw [show insertA k v (e :: rest) = (k, v) :: rest from by simp [insertA, he]]
      by_cases hr : k = r
      · simp [lookupA, hr]
      · have her : ¬ e.1 = r := by rw [he]; exact hr
        simp [lookupA, hr, her]
    · rw [show insertA k v (e :: rest) = e :: insertA k v rest from by simp [insertA, he]]
      by_cases her : e.1 = r
      · have hkr : ¬ k = r := fun h => he (by rw [h, her])
        simp [lookupA, her, hkr]
      · simp [lookupA, her, ih]

theorem keysA_insertA_of_mem {α : Type} {k : String} (v : α) {l : List (String × α)}
    (h : k ∈ keysA l) : keysA (insertA k v l) = keysA l := by
  induction l with
  | nil => simp at h
  | cons e rest ih =>
    by_cases he : e.1 = k
    · simp [insertA, he]
    · have hk : k ∈ keysA rest := by
        rcases (by simpa using h : k = e.1 ∨ k ∈ keysA rest) with h1 | h1
        · exact absurd h1.symm he
        · exact h1
      simp [insertA, he, ih hk]

theorem keysA_insertA_of_not_mem {α : Type} {k : String} (v : α) {l : List (String × α)}
    (h : k ∉ keysA l) : keysA (insertA k v l) = keysA l ++ [k] := by
  induction l with
  | nil => simp [insertA]
  | cons e rest ih =>
    have he : e.1 ≠ k := by
      intro hk
      exact h (by simp [hk])
    have hk : k ∉ keysA rest := by
      intro hm
      exact h (by simp [hm])
    simp [insertA, he, ih hk]

theorem mem_keysA_insertA {α : Type} (k r : String) (v : α) (l : List (String × α)) :
    r ∈ keysA (insertA k v l) ↔ r = k ∨ r ∈ keysA l := by
  by_cases hm : k ∈ keysA l
  · rw [keysA_insertA_of_mem v hm]
    constructor
    · exact Or.inr
    · rintro (rfl | h)
      · exact hm
      · exact h
  · rw [keysA_insertA_of_not_mem v hm]
    simp [or_comm]

theorem nodup_keysA_insertA {α : Type} {k : String} (v : α) {l : List (String × α)}
    (h : (keysA l).Nodup) : (keysA (insertA k v l)).Nodup := by
  by_cases hm : k ∈ keysA l
  · rwa [keysA_insertA_of_mem v hm]
  · rw [keysA_insertA_of_not_mem v hm]
    refine List.nodup_append.mpr ⟨h, List.nodup_singleton k, ?_⟩
    intro a ha hb
    rw [show a = k from by simpa using hb] at ha
    exact hm ha

theorem lookupA_eq_none_iff {α : Type} {k : String} {l : List (String × α)} :
    lookupA k l = none ↔ k ∉ keysA l := by
  induction l with
  | nil => simp [lookupA]
  | cons e rest ih =>
    by_cases he : e.1 = k
    · simp [lookupA, he]
    · have hne : ¬ k = e.1 := fun h => he h.symm
      rw [show lookupA k (e :: rest) = lookupA k rest from by simp [lookupA, he]]
      rw [ih]
      simp [hne]

theorem lookupA_mem {α : Type} {k : String} {v : α} {l : List (String × α)}
    (h : lookupA k l = some v) : (k, v) ∈ l := by
  induction l with
  | nil => simp [lookupA] at h
  | cons e rest ih =>
    obtain ⟨a, b⟩ := e
    by_cases he : a = k
    · have hb : b = v := by simpa [lookupA, he] using h
      subst hb
      subst he
      exact List.mem_cons_self _ _
    · simp only [lookupA, if_neg (by simpa using he)] at h
      exact List.mem_cons_of_mem _ (ih h)

theorem lookupA_of_mem_nodup {α : Type} {k : String} {v : α} {l : List (String × α)}
    (hn : (keysA l).Nodup) (h : (k, v) ∈ l) : lookupA k l = some v := by
  induction l with
  | nil => simp at h
  | cons e rest ih =>
    rw [keysA_cons, List.nodup_cons] at hn
    rcases List.mem_cons.mp h with h | h
    · simp [lookupA, ← h]
    · have hk : k ∈ keysA rest := mem_keysA_of_mem h
      have he : ¬ e.1 = k := fun hek => hn.1 (by rw [hek]; exact hk)
      simp [lookupA, he, ih hn.2 h]

theorem mem_insertA {α : Type} {k : String} {v : α} {l : List (String × α)}
    {e : String × α} (h : e ∈ insertA k v l) : e ∈ l ∨ e = (k, v) := by
  induction l with
  | nil =>
    right
    simpa [insertA] using h
  | cons f rest ih =>
    by_cases hf : f.1 = k
    · rw [show insertA k v (f :: rest) = (k, v) :: rest from by simp [insertA, hf]] at h
      rcases List.mem_cons.mp h with h | h
      · right; exact h
      · left; exact List.mem_cons_of_mem _ h
    · rw [show insertA k v (f :: rest) = f :: insertA k v rest from by simp [insertA, hf]] at h
      rcases List.mem_cons.mp h with h | h
      · left; exact h ▸ List.mem_cons_self _ _
      · rcases ih h with h | h
        · left; exact List.mem_cons_of_mem _ h
        · right; exact h

theorem mem_map_snd {α : Type} {v : α} {l : List (String × α)} :
    v ∈ l.map Prod.snd ↔ ∃ k, (k, v) ∈ l := by
  simp only [List.mem_map]
  constructor
  · rintro ⟨⟨a, b⟩, hm, hb⟩
    refine ⟨a, ?_⟩
    have : b = v := hb
    rwa [← this]
  · rintro ⟨k, hm⟩
    exact ⟨(k, v), hm, rfl⟩

theorem getQuantity_insertA (k r : String) (v : Quantity) (rl : ResourceList) :
    getQuantity (insertA k v rl) r = if k = r then v else getQuantity rl r := by
  rw [getQuantity, lookupA_insertA]
  by_cases h : k = r <;> simp [h, getQuantity]

theorem getQuantity_addRequest (rl : ResourceList) (k : String) (q : Quantity) (r : String) :
    getQuantity (addRequest rl k q) r = getQuantity rl r + (if k = r then q else 0) := by
  rw [addRequest]
  cases hl : lookupA k rl with
  | none =>
    rw [getQuantity_insertA]
    by_cases h : k = r
    · subst h
      simp [getQuantity, hl]
    · simp [h]
  | some ex =>
    rw [getQuantity_insertA]
    by_cases h : k = r
    · subst h
      simp [getQuantity, hl]
    · simp [h]

theorem getQuantity_fold_addRequest (entries : List (String × Quantity)) (rl : ResourceList)
    (r : String) :
    getQuantity (entries.foldl (fun rl e => addRequest rl e.1 e.2) rl) r
      = getQuantity rl r + ((entries.filter (fun e => e.1 = r)).map Prod.snd).sum := by
  induction entries generalizing rl with
  | nil => simp
  | cons e rest ih =>
    rw [List.foldl_cons, ih, getQuantity_addRequest]
    by_cases h : e.1 = r
    · simp [h]
      ring
    · simp [h]

theorem getQuantity_fold_containers (cs : List Container) (rl : ResourceList) (r : String) :
    getQuantity
        (cs.foldl (fun rl c => c.requests.foldl (fun rl e => addRequest rl e.1 e.2) rl) rl) r
      = getQuantity rl r + (cs.map (fun c => containerReq c r)).sum := by
  induction cs generalizing rl with
  | nil => simp
  | cons c rest ih =>
    rw [List.foldl_cons, ih, getQuantity_fold_addRequest]
    simp only [List.map_cons, List.sum_cons, containerReq]
    ring

theorem demandOf_insertA (n k r : String) (rl : ResourceList)
    (req : List (String × ResourceList)) :
    demandOf (insertA k rl req) n r = if k = n then getQuantity rl r else demandOf req n r := by
  rw [demandOf, lookupA_insertA]
  by_cases h : k = n <;> simp [h, demandOf]

theorem demandOf_aggregatePod (req : List (String × ResourceList)) (p : Pod) (n r : String)
    (hn : n ≠ "") :
    demandOf (aggregatePod req p) n r
      = demandOf req n r + (if p.nodeName = n then podReq p r else 0) := by
  by_cases hp : p.nodeName = ""
  · have hpn : p.nodeName ≠ n := fun h => hn (by rw [← h]; exact hp)
    rw [aggregatePod, if_pos hp, if_neg hpn, add_zero]
  · rw [aggregatePod, if_neg hp]
    dsimp only
    rw [demandOf_insertA]
    by_cases hpn : p.nodeName = n
    · rw [if_pos hpn, if_pos hpn, getQuantity_fold_containers]
      simp only [podReq, hpn]
      cases hl : lookupA n req with
      | none => simp [demandOf, hl, getQuantity, lookupA]
      | some rl0 => simp [demandOf, hl]
    · rw [if_neg hpn, if_neg hpn, add_zero]

theorem demandOf_foldl_aggregatePod (pods : List Pod) (acc : List (String × ResourceList))
    (n r : String) (hn : n ≠ "") :
    demandOf (pods.foldl aggregatePod acc) n r = demandOf acc n r + demandSum pods n r := by
  induction pods generalizing acc with
  | nil => simp [demandSum]
  | cons p rest ih =>
    rw [List.foldl_cons, ih, demandOf_aggregatePod _ _ _ _ hn, demandSum]
    by_cases hpn : p.nodeName = n
    · simp [hpn, demandSum]
      ring
    · simp [hpn, demandSum]

theorem demandOf_buildDemand (pods : List Pod) (n r : String) (hn : n ≠ "") :
    demandOf (buildDemand pods) n r = demandSum pods n r := by
  rw [buildDemand, demandOf_foldl_aggregatePod _ _ _ _ hn]
  simp [demandOf, lookupA]

theorem aggregatePod_unassigned (req : List (String × ResourceList)) (p : Pod)
    (hp : p.nodeName = "") : aggregatePod req p = req := by
  simp [aggregatePod, hp]

theorem buildDemand_skips_unassigned (l1 : List Pod) (p : Pod) (l2 : List Pod)
    (hp : p.nodeName = "") : buildDemand (l1 ++ p :: l2) = buildDemand (l1 ++ l2) := by
  rw [buildDemand, buildDemand, List.foldl_append, List.foldl_append, List.foldl_cons,
    aggregatePod_unassigned _ _ hp]

theorem resolveNode_nodeName (req : List (String × ResourceList)) (node : K8sNode) :
    (resolveNode req node).nodeName = node.name := rfl

theorem resolveNode_devices (req : List (String × ResourceList)) (node : K8sNode) :
    (resolveNode req node).devices = [] := rfl

theorem resolveNode_totals (req : List (String × ResourceList)) (node : K8sNode) :
    (resolveNode req node).nodeCapacity.totalCPU = getQuantity node.capacity cpuName ∧
    (resolveNode req node).nodeCapacity.totalMemory = getQuantity node.capacity memoryName ∧
    (resolveNode req node).nodeCapacity.totalStorage = getQuantity node.capacity storageName :=
  ⟨rfl, rfl, rfl⟩

theorem resolveNode_available (req : List (String × ResourceList)) (node : K8sNode) :
    (resolveNode req node).nodeCapacity.availableCPU
        = getQuantity node.allocatable cpuName - demandOf req node.name cpuName ∧
    (resolveNode req node).nodeCapacity.availableMemory
        = getQuantity node.allocatable memoryName - demandOf req node.name memoryName ∧
    (resolveNode req node).nodeCapacity.availableStorage
        = getQuantity node.allocatable storageName - demandOf req node.name storageName := by
  rw [resolveNode]
  dsimp only
  cases hl : lookupA node.name req with
  | none =>
    simp only [demandOf, hl]
    refine ⟨?_, ?_, ?_⟩ <;> ring
  | some reqs =>
    simp only [demandOf, hl]
    refine ⟨?_, ?_, ?_⟩
    · cases hc : lookupA cpuName reqs <;> simp [getQuantity, hc]
    · cases hc : lookupA memoryName reqs <;> simp [getQuantity, hc]
    · cases hc : lookupA storageName reqs <;> simp [getQuantity, hc]

theorem mem_keysA_buildNodeMap_acc (req : List (String × ResourceList))
    (nodes : List K8sNode) (acc : List (String × types.NodeInfo)) (r : String) :
    r ∈ keysA (nodes.foldl (addNode req) acc) ↔
      r ∈ keysA acc ∨ r ∈ nodes.map K8sNode.name := by
  induction nodes generalizing acc with
  | nil => simp
  | cons node rest ih =>
    rw [List.foldl_cons]
    rw [ih]
    rw [show addNode req acc node = insertA node.name (resolveNode req node) acc from rfl]
    rw [mem_keysA_insertA]
    simp [or_assoc, or_comm, or_left_comm]

theorem nodup_keysA_buildNodeMap_acc (req : List (String × ResourceList))
    (nodes : List K8sNode) (acc : List (String × types.NodeInfo))
    (h : (keysA acc).Nodup) : (keysA (nodes.foldl (addNode req) acc)).Nodup := by
  induction nodes generalizing acc with
  | nil => exact h
  | cons node rest ih =>
    rw [List.foldl_cons]
    exact ih _ (nodup_keysA_insertA _ h)

theorem mem_keysA_buildNodeMap (req : List (String × ResourceList))
    (nodes : List K8sNode) (r : String) :
    r ∈ keysA (buildNodeMap req nodes) ↔ r ∈ nodes.map K8sNode.name := by
  rw [buildNodeMap, mem_keysA_buildNodeMap_acc]
  simp

theorem nodup_keysA_buildNodeMap (req : List (String × ResourceList))
    (nodes : List K8sNode) : (keysA (buildNodeMap req nodes)).Nodup := by
  rw [buildNodeMap]
  exact nodup_keysA_buildNodeMap_acc _ _ _ (by simp)

theorem mem_buildNodeMap_acc (req : List (String × ResourceList))
    (nodes : List K8sNode) (acc : List (String × types.NodeInfo))
    {e : String × types.NodeInfo} (h : e ∈ nodes.foldl (addNode req) acc) :
    e ∈ acc ∨ ∃ node ∈ nodes, e = (node.name, resolveNode req node) := by
  induction nodes generalizing acc with
  | nil => exact Or.inl h
  | cons node rest ih =>
    rw [List.foldl_cons] at h
    rcases ih _ h with h1 | h1
    · rcases mem_insertA h1 with h2 | h2
      · exact Or.inl h2
      · exact Or.inr ⟨node, List.mem_cons_self _ _, h2⟩
    · rcases h1 with ⟨nd, hnd, he⟩
      exact Or.inr ⟨nd, List.mem_cons_of_mem _ hnd, he⟩

theorem mem_buildNodeMap (req : List (String × ResourceList)) (nodes : List K8sNode)
    {e : String × types.NodeInfo} (h : e ∈ buildNodeMap req nodes) :
    ∃ node ∈ nodes, e = (node.name, resolveNode req node) := by
  rcases mem_buildNodeMap_acc req nodes [] h with h1 | h1
  · simp at h1
  · exact h1

theorem lookupA_foldl_addNode_untouched (req : List (String × ResourceList))
    (nodes : List K8sNode) (acc : List (String × types.NodeInfo)) (n : String)
    (h : ∀ node ∈ nodes, node.name ≠ n) :
    lookupA n (nodes.foldl (addNode req) acc) = lookupA n acc := by
  induction nodes generalizing acc with
  | nil => rfl
  | cons node rest ih =>
    rw [List.foldl_cons]
    rw [ih _ (fun nd hnd => h nd (List.mem_cons_of_mem _ hnd))]
    rw [show addNode req acc node = insertA node.name (resolveNode req node) acc from rfl]
    rw [lookupA_insertA, if_neg (h node (List.mem_cons_self _ _))]

theorem lookupA_foldl_addNode (req : List (String × ResourceList)) (nodes : List K8sNode)
    (acc : List (String × types.NodeInfo)) {node : K8sNode}
    (hnd : (nodes.map K8sNode.name).Nodup) (hm : node ∈ nodes) :
    lookupA node.name (nodes.foldl (addNode req) acc) = some (resolveNode req node) := by
  induction nodes generalizing acc with
  | nil => simp at hm
  | cons nd rest ih =>
    rw [List.map_cons, List.nodup_cons] at hnd
    rw [List.foldl_cons]
    rcases List.mem_cons.mp hm with h | h
    · subst h
      rw [lookupA_foldl_addNode_untouched _ _ _ _
        (fun nd2 hnd2 h2 =>
          hnd.1 (by rw [← h2]; exact List.mem_map_of_mem K8sNode.name hnd2))]
      rw [show addNode req acc node = insertA node.name (resolveNode req node) acc from rfl]
      rw [lookupA_insertA, if_pos rfl]
    · exact ih _ hnd.2 h

theorem lookupA_buildNodeMap (req : List (String × ResourceList)) (nodes : List K8sNode)
    {node : K8sNode} (hnd : (nodes.map K8sNode.name).Nodup) (hm : node ∈ nodes) :
    lookupA node.name (buildNodeMap req nodes) = some (resolveNode req node) := by
  rw [buildNodeMap]
  exact lookupA_foldl_addNode req nodes [] hnd hm

theorem extendsNI_refl (v : types.NodeInfo) : extendsNI v v :=
  ⟨rfl, rfl, rfl, [], by simp⟩

theorem extendsNI_trans {a b c : types.NodeInfo} (h1 : extendsNI a b) (h2 : extendsNI b c) :
    extendsNI a c := by
  obtain ⟨hn1, hr1, hc1, ds1, hd1⟩ := h1
  obtain ⟨hn2, hr2, hc2, ds2, hd2⟩ := h2
  exact ⟨hn2.trans hn1, hr2.trans hr1, hc2.trans hc1, ds1 ++ ds2,
    by rw [hd2, hd1, List.append_assoc]⟩

theorem processSlice_keysA {alloc : List (String × List String)}
    {m m' : List (String × types.NodeInfo)} {rs : ResourceSlice}
    (h : processSlice alloc m rs = some m') : keysA m' = keysA m := by
  rw [processSlice] at h
  cases h1 : lookupA rs.nodeName m with
  | none =>
    rw [h1] at h
    simp at h
    rw [h]
  | some nodeInfo =>
    rw [h1] at h
    dsimp only at h
    cases h2 : foldDevices alloc (sliceKey rs.driver rs.poolName) rs.driver [] rs.devices with
    | none => rw [h2] at h; simp at h
    | some dm =>
      rw [h2] at h
      simp at h
      rw [← h]
      exact keysA_insertA_of_mem _ (mem_keysA_of_mem (lookupA_mem h1))

theorem foldSlices_keysA {alloc : List (String × List String)}
    {m m' : List (String × types.NodeInfo)} {slices : List ResourceSlice}
    (h : foldSlices alloc m slices = some m') : keysA m' = keysA m := by
  induction slices generalizing m with
  | nil =>
    rw [foldSlices] at h
    simp at h
    rw [h]
  | cons rs rest ih =>
    rw [foldSlices] at h
    cases h1 : processSlice alloc m rs with
    | none => rw [h1] at h; simp at h
    | some m2 =>
      rw [h1] at h
      dsimp only at h
      exact (ih h).trans (processSlice_keysA h1)

theorem processSlice_untouched {alloc : List (String × List String)}
    {m m' : List (String × types.NodeInfo)} {rs : ResourceSlice} {n : String}
    (h : processSlice alloc m rs = some m') (hne : rs.nodeName ≠ n) :
    lookupA n m' = lookupA n m := by
  rw [processSlice] at h
  cases h1 : lookupA rs.nodeName m with
  | none =>
    rw [h1] at h
    simp at h
    rw [h]
  | some nodeInfo =>
    rw [h1] at h
    dsimp only at h
    cases h2 : foldDevices alloc (sliceKey rs.driver rs.poolName) rs.driver [] rs.devices with
    | none => rw [h2] at h; simp at h
    | some dm =>
      rw [h2] at h
      simp at h
      rw [← h, lookupA_insertA, if_neg hne]

theorem foldSlices_untouched {alloc : List (String × List String)}
    {m m' : List (String × types.NodeInfo)} {slices : List ResourceSlice} {n : String}
    (h : foldSlices alloc m slices = some m') (hne : ∀ rs ∈ slices, rs.nodeName ≠ n) :
    lookupA n m' = lookupA n m := by
  induction slices generalizing m with
  | nil =>
    rw [foldSlices] at h
    simp at h
    rw [h]
  | cons rs rest ih =>
    rw [foldSlices] at h
    cases h1 : processSlice alloc m rs with
    | none => rw [h1] at h; simp at h
    | some m2 =>
      rw [h1] at h
      dsimp only at h
      rw [ih h (fun s hs => hne s (List.mem_cons_of_mem _ hs))]
      exact processSlice_untouched h1 (hne rs (List.mem_cons_self _ _))

theorem processSlice_extends {alloc : List (String × List String)}
    {m m' : List (String × types.NodeInfo)} {rs : ResourceSlice} {n : String}
    {v' : types.NodeInfo} (h : processSlice alloc m rs = some m')
    (hl : lookupA n m' = some v') :
    ∃ v, lookupA n m = some v ∧ extendsNI v v' := by
  rw [processSlice] at h
  cases h1 : lookupA rs.nodeName m with
  | none =>
    rw [h1] at h
    simp at h
    rw [← h] at hl
    exact ⟨v', hl, extendsNI_refl v'⟩
  | some nodeInfo =>
    rw [h1] at h
    dsimp only at h
    cases h2 : foldDevices alloc (sliceKey rs.driver rs.poolName) rs.driver [] rs.devices with
    | none => rw [h2] at h; simp at h
    | some dm =>
      rw [h2] at h
      simp at h
      rw [← h, lookupA_insertA] at hl
      by_cases hn : rs.nodeName = n
      · rw [if_pos hn] at hl
        rw [← hn]
        refine ⟨nodeInfo, h1, ?_⟩
        obtain rfl : ({ nodeInfo with
            devices := nodeInfo.devices ++ dm.map Prod.snd } : types.NodeInfo) = v' :=
          Option.some.inj hl
        exact ⟨rfl, rfl, rfl, dm.map Prod.snd, rfl⟩
      · rw [if_neg hn] at hl
        exact ⟨v', hl, extendsNI_refl v'⟩

theorem foldSlices_extends {alloc : List (String × List String)}
    {m m' : List (String × types.NodeInfo)} {slices : List ResourceSlice} {n : String}
    {v' : types.NodeInfo} (h : foldSlices alloc m slices = some m')
    (hl : lookupA n m' = some v') :
    ∃ v, lookupA n m = some v ∧ extendsNI v v' := by
  induction slices generalizing m with
  | nil =>
    rw [foldSlices] at h
    simp at h
    rw [← h] at hl
    exact ⟨v', hl, extendsNI_refl v'⟩
  | cons rs rest ih =>
    rw [foldSlices] at h
    cases h1 : processSlice alloc m rs with
    | none => rw [h1] at h; simp at h
    | some m2 =>
      rw [h1] at h
      dsimp only at h
      obtain ⟨v2, hl2, he2⟩ := ih h
      obtain ⟨v, hlv, hev⟩ := processSlice_extends h1 hl2
      exact ⟨v, hlv, extendsNI_trans hev he2⟩

theorem tallyDevice_entries (P : String × types.Device → Prop) {pn : String} {mem : Quantity}
    {dm : List (String × types.Device)} (hb : ∀ e ∈ dm, P e)
    (hnew : P (pn, { productName := pn, totalCount := 1, availableCount := 1, memory := mem }))
    (hinc : ∀ d, P (pn, d) →
      P (pn, { d with totalCount := d.totalCount + 1, availableCount := d.availableCount + 1 })) :
    ∀ e ∈ tallyDevice pn mem dm, P e := by
  intro e he
  rw [tallyDevice] at he
  cases hl : lookupA pn dm with
  | none =>
    rw [hl] at he
    rcases mem_insertA he with h2 | h2
    · exact hb e h2
    · rw [h2]; exact hnew
  | some d =>
    rw [hl] at he
    rcases mem_insertA he with h2 | h2
    · exact hb e h2
    · rw [h2]; exact hinc d (hb _ (lookupA_mem hl))

theorem decrementIfAllocated_entries (P : String × types.Device → Prop) {allocated : Bool}
    {pn : String} {dm : List (String × types.Device)} (hb : ∀ e ∈ dm, P e)
    (hdec : ∀ d, P (pn, d) → allocated = true → 0 < d.availableCount →
      P (pn, { d with availableCount := d.availableCount - 1 })) :
    ∀ e ∈ decrementIfAllocated allocated pn dm, P e := by
  intro e he
  rw [decrementIfAllocated] at he
  cases allocated with
  | false => simp at he; exact hb e he
  | true =>
    simp only [if_true] at he
    cases hl : lookupA pn dm with
    | none => rw [hl] at he; exact hb e he
    | some d =>
      rw [hl] at he
      rcases mem_insertA he with h2 | h2
      · exact hb e h2
      · rw [h2]
        by_cases hd : d.availableCount > 0
        · rw [if_pos hd]
          exact hdec d (hb _ (lookupA_mem hl)) rfl hd
        · rw [if_neg hd]
          exact hb _ (lookupA_mem hl)

theorem keysA_nodup_tallyDevice {pn : String} {mem : Quantity}
    {dm : List (String × types.Device)} (h : (keysA dm).Nodup) :
    (keysA (tallyDevice pn mem dm)).Nodup := by
  rw [tallyDevice]
  cases hl : lookupA pn dm with
  | none => exact nodup_keysA_insertA _ h
  | some d => exact nodup_keysA_insertA _ h

theorem keysA_nodup_decrementIfAllocated {allocated : Bool} {pn : String}
    {dm : List (String × types.Device)} (h : (keysA dm).Nodup) :
    (keysA (decrementIfAllocated allocated pn dm)).Nodup := by
  rw [decrementIfAllocated]
  cases allocated with
  | false => exact h
  | true =>
    simp only [if_true]
    cases hl : lookupA pn dm with
    | none => exact h
    | some d => exact nodup_keysA_insertA _ h

theorem foldDevices_entries (P : String × types.Device → Prop)
    {alloc : List (String × List String)} {sid driver : String}
    {dm dm' : List (String × types.Device)} {devs : List Device}
    (h : foldDevices alloc sid driver dm devs = some dm') (hb : ∀ e ∈ dm, P e)
    (hnew : ∀ k mem,
      P (k, { productName := k, totalCount := 1, availableCount := 1, memory := mem }))
    (hinc : ∀ k d, P (k, d) →
      P (k, { d with totalCount := d.totalCount + 1, availableCount := d.availableCount + 1 }))
    (hdec : ∀ k d (dev : Device), dev ∈ devs → allocLookup alloc sid dev.name = true →
      P (k, d) → 0 < d.availableCount →
      P (k, { d with availableCount := d.availableCount - 1 })) :
    ∀ e ∈ dm', P e := by
  induction devs generalizing dm with
  | nil =>
    rw [foldDevices] at h
    simp at h
    rw [← h]
    exact hb
  | cons dev rest ih =>
    rw [foldDevices] at h
    cases hp : processDevice alloc sid driver dm dev with
    | none => rw [hp] at h; simp at h
    | some dm1 =>
      rw [hp] at h
      dsimp only at h
      rw [processDevice] at hp
      cases hres : resolveProductName driver dev with
      | none => rw [hres] at hp; simp at hp
      | some pn =>
        rw [hres] at hp
        dsimp only at hp
        have hdm1 : ∀ e ∈ dm1, P e := by
          rw [← Option.some.inj hp]
          exact decrementIfAllocated_entries P
            (tallyDevice_entries P hb (hnew pn (deviceMemory dev)) (hinc pn))
            (fun d hP ht h0 =>
              hdec pn d dev (List.mem_cons_self _ _) ht hP h0)
        exact ih h hdm1 (fun k d dev2 hm2 => hdec k d dev2 (List.mem_cons_of_mem _ hm2))

theorem foldDevices_keysA_nodup {alloc : List (String × List String)} {sid driver : String}
    {dm dm' : List (String × types.Device)} {devs : List Device}
    (h : foldDevices alloc sid driver dm devs = some dm') (hb : (keysA dm).Nodup) :
    (keysA dm').Nodup := by
  induction devs generalizing dm with
  | nil =>
    rw [foldDevices] at h
    simp at h
    rw [← h]
    exact hb
  | cons dev rest ih =>
    rw [foldDevices] at h
    cases hp : processDevice alloc sid driver dm dev with
    | none => rw [hp] at h; simp at h
    | some dm1 =>
      rw [hp] at h
      dsimp only at h
      rw [processDevice] at hp
      cases hres : resolveProductName driver dev with
      | none => rw [hres] at hp; simp at hp
      | some pn =>
        rw [hres] at hp
        dsimp only at hp
        refine ih h ?_
        rw [← Option.some.inj hp]
        exact keysA_nodup_decrementIfAllocated (keysA_nodup_tallyDevice hb)

theorem processSlice_nodeName_inv {alloc : List (String × List String)}
    {m m' : List (String × types.NodeInfo)} {rs : ResourceSlice}
    (h : processSlice alloc m rs = some m') (hinv : ∀ e ∈ m, e.2.nodeName = e.1) :
    ∀ e ∈ m', e.2.nodeName = e.1 := by
  rw [processSlice] at h
  cases h1 : lookupA rs.nodeName m with
  | none =>
    rw [h1] at h
    simp at h
    rw [← h]
    exact hinv
  | some nodeInfo =>
    rw [h1] at h
    dsimp only at h
    cases h2 : foldDevices alloc (sliceKey rs.driver rs.poolName) rs.driver [] rs.devices with
    | none => rw [h2] at h; simp at h
    | some dm =>
      rw [h2] at h
      simp at h
      intro e he
      rw [← h] at he
      rcases mem_insertA he with h3 | h3
      · exact hinv e h3
      · rw [h3]
        show nodeInfo.nodeName = rs.nodeName
        exact hinv _ (lookupA_mem h1)

theorem foldSlices_nodeName_inv {alloc : List (String × List String)}
    {m m' : List (String × types.NodeInfo)} {slices : List ResourceSlice}
    (h : foldSlices alloc m slices = some m') (hinv : ∀ e ∈ m, e.2.nodeName = e.1) :
    ∀ e ∈ m', e.2.nodeName = e.1 := by
  induction slices generalizing m with
  | nil =>
    rw [foldSlices] at h
    simp at h
    rw [← h]
    exact hinv
  | cons rs rest ih =>
    rw [foldSlices] at h
    cases h1 : processSlice alloc m rs with
    | none => rw [h1] at h; simp at h
    | some m2 =>
      rw [h1] at h
      dsimp only at h
      exact ih h (processSlice_nodeName_inv h1 hinv)

theorem foldSlices_node_devices_inv (P : types.Device → Prop)
    {alloc : List (String × List String)} {m m' : List (String × types.NodeInfo)}
    {slices : List ResourceSlice} (n : String)
    (h : foldSlices alloc m slices = some m')
    (hinv : ∀ v, lookupA n m = some v → ∀ d ∈ v.devices, P d)
    (hdm : ∀ rs ∈ slices, rs.nodeName = n → ∀ dm,
      foldDevices alloc (sliceKey rs.driver rs.poolName) rs.driver [] rs.devices = some dm →
      ∀ e ∈ dm, P e.2) :
    ∀ v, lookupA n m' = some v → ∀ d ∈ v.devices, P d := by
  induction slices generalizing m with
  | nil =>
    rw [foldSlices] at h
    simp at h
    rw [← h]
    exact hinv
  | cons rs rest ih =>
    rw [foldSlices] at h
    cases h1 : processSlice alloc m rs with
    | none => rw [h1] at h; simp at h
    | some m2 =>
      rw [h1] at h
      dsimp only at h
      refine ih h ?_ (fun s hs => hdm s (List.mem_cons_of_mem _ hs))
      by_cases hn : rs.nodeName = n
      · rw [processSlice] at h1
        cases h3 : lookupA rs.nodeName m with
        | none =>
          rw [h3] at h1
          simp at h1
          rw [← h1]
          exact hinv
        | some nodeInfo =>
          rw [h3] at h1
          dsimp only at h1
          cases h4 : foldDevices alloc (sliceKey rs.driver rs.poolName) rs.driver []
              rs.devices with
          | none => rw [h4] at h1; simp at h1
          | some dm =>
            rw [h4] at h1
            simp at h1
            intro v hv d hd
            rw [← h1, lookupA_insertA, if_pos hn] at hv
            obtain rfl := Option.some.inj hv
            rcases List.mem_append.mp hd with h5 | h5
            · rw [hn] at h3
              exact hinv nodeInfo h3 d h5
            · obtain ⟨k, hk⟩ := mem_map_snd.mp h5
              exact hdm rs (List.mem_cons_self _ _) hn dm h4 (k, d) hk
      · intro v hv
        rw [processSlice_untouched h1 hn] at hv
        exact hinv v hv

theorem mem_insertSet (d x : String) (s : List String) :
    x ∈ insertSet d s ↔ x = d ∨ x ∈ s := by
  rw [insertSet]
  by_cases h : d ∈ s
  · rw [if_pos h]
    constructor
    · exact Or.inr
    · rintro (rfl | h2)
      · exact h
      · exact h2
  · rw [if_neg h]
    simp [or_comm]

theorem allocLookup_insertA (k r d : String) (s : List String)
    (acc : List (String × List String)) :
    allocLookup (insertA k s acc) r d
      = if k = r then decide (d ∈ s) else allocLookup acc r d := by
  rw [allocLookup, lookupA_insertA]
  by_cases h : k = r
  · simp [h]
  · simp [h, allocLookup]

theorem allocLookup_addAllocation (acc : List (String × List String))
    (ads : DeviceRequestAllocationResult) (k d : String) :
    allocLookup (addAllocation acc ads) k d = true ↔
      (sliceKey ads.driver ads.pool = k ∧ ads.device = d) ∨ allocLookup acc k d = true := by
  rw [addAllocation]
  rw [allocLookup_insertA]
  by_cases hk : sliceKey ads.driver ads.pool = k
  · rw [if_pos hk]
    rw [decide_eq_true_iff, mem_insertSet]
    cases hl : lookupA (sliceKey ads.driver ads.pool) acc with
    | none =>
      dsimp only
      have ha : allocLookup acc k d = false := by
        rw [allocLookup, ← hk, hl]
      rw [ha]
      simp [hk, eq_comm]
    | some s0 =>
      dsimp only
      have ha : allocLookup acc k d = decide (d ∈ s0) := by
        rw [allocLookup, ← hk, hl]
      rw [ha]
      simp [hk, eq_comm]
  · rw [if_neg hk]
    simp [hk]

theorem allocLookup_foldl_addAllocation (results : List DeviceRequestAllocationResult)
    (acc : List (String × List String)) (k d : String) :
    allocLookup (results.foldl addAllocation acc) k d = true ↔
      (∃ t ∈ results, sliceKey t.driver t.pool = k ∧ t.device = d)
        ∨ allocLookup acc k d = true := by
  induction results generalizing acc with
  | nil => simp
  | cons t rest ih =>
    rw [List.foldl_cons, ih, allocLookup_addAllocation]
    simp only [List.mem_cons]
    constructor
    · rintro (⟨t2, ht2, hp⟩ | (hp | hp))
      · exact Or.inl ⟨t2, Or.inr ht2, hp⟩
      · exact Or.inl ⟨t, Or.inl rfl, hp⟩
      · exact Or.inr hp
    · rintro (⟨t2, (rfl | ht2), hp⟩ | hp)
      · exact Or.inr (Or.inl hp)
      · exact Or.inl ⟨t2, ht2, hp⟩
      · exact Or.inr (Or.inr hp)

theorem allocLookup_addClaim (acc : List (String × List String)) (rc : ResourceClaim)
    (k d : String) :
    allocLookup (addClaim acc rc) k d = true ↔
      (∃ t ∈ resultsOf rc, sliceKey t.driver t.pool = k ∧ t.device = d)
        ∨ allocLookup acc k d = true := by
  rw [addClaim]
  cases hrc : rc.allocation with
  | none => simp [resultsOf, hrc]
  | some results =>
    dsimp only
    by_cases hlen : results.length > 0
    · rw [if_pos hlen, allocLookup_foldl_addAllocation]
      simp [resultsOf, hrc]
    · have hres : results = [] := List.length_eq_zero.mp (by omega)
      subst hres
      rw [if_neg hlen]
      simp [resultsOf, hrc]

theorem allocLookup_foldl_addClaim (claims : List ResourceClaim)
    (acc : List (String × List String)) (k d : String) :
    allocLookup (claims.foldl addClaim acc) k d = true ↔
      (∃ rc ∈ claims, ∃ t ∈ resultsOf rc, sliceKey t.driver t.pool = k ∧ t.device = d)
        ∨ allocLookup acc k d = true := by
  induction claims generalizing acc with
  | nil => simp
  | cons rc rest ih =>
    rw [List.foldl_cons, ih, allocLookup_addClaim]
    simp only [List.mem_cons]
    constructor
    · rintro (⟨rc2, h2, hp⟩ | (hp | hp))
      · exact Or.inl ⟨rc2, Or.inr h2, hp⟩
      · exact Or.inl ⟨rc, Or.inl rfl, hp⟩
      · exact Or.inr hp
    · rintro (⟨rc2, (rfl | h2), hp⟩ | hp)
      · exact Or.inr (Or.inl hp)
      · exact Or.inl ⟨rc2, h2, hp⟩
      · exact Or.inr (Or.inr hp)

theorem allocLookup_buildAllocated (claims : List ResourceClaim) (k d : String) :
    allocLookup (buildAllocated claims) k d = true ↔
      ∃ rc ∈ claims, ∃ t ∈ resultsOf rc, sliceKey t.driver t.pool = k ∧ t.device = d := by
  rw [buildAllocated, allocLookup_foldl_addClaim]
  simp [allocLookup, lookupA]

theorem bool_eq_of_iff {a b : Bool} (h : a = true ↔ b = true) : a = b := by
  cases a <;> cases b <;> simp_all

theorem processDevice_alloc_congr {a1 a2 : List (String × List String)}
    {sid driver : String} {dm : List (String × types.Device)} {dev : Device}
    (h : allocLookup a1 sid dev.name = allocLookup a2 sid dev.name) :
    processDevice a1 sid driver dm dev = processDevice a2 sid driver dm dev := by
  rw [processDevice, processDevice, h]

theorem foldDevices_alloc_congr {a1 a2 : List (String × List String)}
    {sid driver : String} {dm : List (String × types.Device)} {devs : List Device}
    (h : ∀ dv ∈ devs, allocLookup a1 sid dv.name = allocLookup a2 sid dv.name) :
    foldDevices a1 sid driver dm devs = foldDevices a2 sid driver dm devs := by
  induction devs generalizing dm with
  | nil => rfl
  | cons dev rest ih =>
    rw [foldDevices, foldDevices,
      processDevice_alloc_congr (h dev (List.mem_cons_self _ _))]
    cases processDevice a2 sid driver dm dev with
    | none => rfl
    | some dm1 =>
      dsimp only
      exact ih (fun dv hv => h dv (List.mem_cons_of_mem _ hv))

theorem processSlice_alloc_congr {a1 a2 : List (String × List String)}
    {m : List (String × types.NodeInfo)} {rs : ResourceSlice}
    (h : ∀ k d, allocLookup a1 k d = allocLookup a2 k d) :
    processSlice a1 m rs = processSlice a2 m rs := by
  rw [processSlice, processSlice]
  cases lookupA rs.nodeName m with
  | none => rfl
  | some nodeInfo =>
    dsimp only
    rw [foldDevices_alloc_congr
      (fun dv _ => h (sliceKey rs.driver rs.poolName) dv.name)]

theorem foldSlices_alloc_congr {a1 a2 : List (String × List String)}
    {m : List (String × types.NodeInfo)} {slices : List ResourceSlice}
    (h : ∀ k d, allocLookup a1 k d = allocLookup a2 k d) :
    foldSlices a1 m slices = foldSlices a2 m slices := by
  induction slices generalizing m with
  | nil => rfl
  | cons rs rest ih =>
    rw [foldSlices, foldSlices, processSlice_alloc_congr h]
    cases processSlice a2 m rs with
    | none => rfl
    | some m2 =>
      dsimp only
      exact ih

theorem reconcile_alloc_congr (nodes : List K8sNode) (slices : List ResourceSlice)
    (cs1 cs2 : List ResourceClaim) (pods : List Pod)
    (h : ∀ k d, allocLookup (buildAllocated cs1) k d = allocLookup (buildAllocated cs2) k d) :
    reconcile nodes slices cs1 pods = reconcile nodes slices cs2 pods := by
  rw [reconcile, reconcile]
  rw [foldSlices_alloc_congr h]

theorem reconcile_eq_some {nodes : List K8sNode} {slices : List ResourceSlice}
    {claims : List ResourceClaim} {pods : List Pod} {out : List types.NodeInfo}
    (h : reconcile nodes slices claims pods = some out) :
    ∃ m', foldSlices (buildAllocated claims) (buildNodeMap (buildDemand pods) nodes) slices
        = some m' ∧ out = m'.map Prod.snd := by
  rw [reconcile] at h
  cases h2 : foldSlices (buildAllocated claims) (buildNodeMap (buildDemand pods) nodes)
      slices with
  | none => rw [h2] at h; simp at h
  | some m =>
    rw [h2] at h
    simp at h
    exact ⟨m, rfl, h.symm⟩

theorem buildNodeMap_nodeName_inv (req : List (String × ResourceList))
    (nodes : List K8sNode) : ∀ e ∈ buildNodeMap req nodes, e.2.nodeName = e.1 := by
  intro e he
  obtain ⟨node, _, he2⟩ := mem_buildNodeMap req nodes he
  rw [he2]
  rfl

theorem buildNodeMap_devices_inv (req : List (String × ResourceList))
    (nodes : List K8sNode) : ∀ e ∈ buildNodeMap req nodes, e.2.devices = [] := by
  intro e he
  obtain ⟨node, _, he2⟩ := mem_buildNodeMap req nodes he
  rw [he2]
  rfl

theorem out_mem_lookup {nodes : List K8sNode} {slices : List ResourceSlice}
    {claims : List ResourceClaim} {pods : List Pod}
    {m' : List (String × types.NodeInfo)}
    (hf : foldSlices (buildAllocated claims) (buildNodeMap (buildDemand pods) nodes) slices
      = some m')
    {r : types.NodeInfo} (hr : r ∈ m'.map Prod.snd) : lookupA r.nodeName m' = some r := by
  obtain ⟨k, hk⟩ := mem_map_snd.mp hr
  have hnn : ∀ e ∈ m', e.2.nodeName = e.1 :=
    foldSlices_nodeName_inv hf (buildNodeMap_nodeName_inv _ _)
  have hkeq : r.nodeName = k := hnn (k, r) hk
  have hnd : (keysA m').Nodup := by
    rw [foldSlices_keysA hf]
    exact nodup_keysA_buildNodeMap _ _
  rw [hkeq]
  exact lookupA_of_mem_nodup hnd hk

/-- C1: for every input, the reconciliation output has exactly one record
per input node name — the output names are exactly the input node names,
without duplicates — a node with no matching slice keeps an empty devices
list, and a slice whose node name matches no node neither contributes
devices nor creates a synthetic entry. -/
theorem C1_one_record_per_node (nodes : List K8sNode) (slices : List ResourceSlice)
    (claims : List ResourceClaim) (pods : List Pod) (out : List types.NodeInfo)
    (h : reconcile nodes slices claims pods = some out) :
    (∀ n, n ∈ out.map types.NodeInfo.nodeName ↔ n ∈ nodes.map K8sNode.name) ∧
    (out.map types.NodeInfo.nodeName).Nodup ∧
    (∀ r ∈ out, (∀ rs ∈ slices, rs.nodeName ≠ r.nodeName) → r.devices = []) := by
  obtain ⟨m', hf, rfl⟩ := reconcile_eq_some h
  have hnn : ∀ e ∈ m', e.2.nodeName = e.1 :=
    foldSlices_nodeName_inv hf (buildNodeMap_nodeName_inv _ _)
  have hkeys : keysA m' = keysA (buildNodeMap (buildDemand pods) nodes) :=
    foldSlices_keysA hf
  have hmapeq : (m'.map Prod.snd).map types.NodeInfo.nodeName = keysA m' := by
    rw [List.map_map]
    exact List.map_congr_left (fun e he => hnn e he)
  refine ⟨?_, ?_, ?_⟩
  · intro n
    rw [hmapeq, hkeys]
    exact mem_keysA_buildNodeMap _ _ n
  · rw [hmapeq, hkeys]
    exact nodup_keysA_buildNodeMap _ _
  · intro r hr hnos
    have hlook : lookupA r.nodeName m' = some r := out_mem_lookup hf hr
    rw [foldSlices_untouched hf (fun rs hs => hnos rs hs)] at hlook
    exact buildNodeMap_devices_inv (buildDemand pods) nodes _ (lookupA_mem hlook)

/-- C2: for every input, every device summary in the output satisfies
`0 ≤ availableCount ≤ totalCount`; the decrement is guarded so the count
is floored at zero even for allocations naming nonexistent devices. -/
theorem C2_available_count_bounds (nodes : List K8sNode) (slices : List ResourceSlice)
    (claims : List ResourceClaim) (pods : List Pod) (out : List types.NodeInfo)
    (h : reconcile nodes slices claims pods = some out) :
    ∀ r ∈ out, ∀ d ∈ r.devices, 0 ≤ d.availableCount ∧ d.availableCount ≤ d.totalCount := by
  obtain ⟨m', hf, rfl⟩ := reconcile_eq_some h
  intro r hr d hd
  have hlook : lookupA r.nodeName m' = some r := out_mem_lookup hf hr
  refine foldSlices_node_devices_inv
    (fun d => 0 ≤ d.availableCount ∧ d.availableCount ≤ d.totalCount) r.nodeName hf
    ?_ ?_ r hlook d hd
  · intro v hv d2 hd2
    rw [buildNodeMap_devices_inv _ _ _ (lookupA_mem hv)] at hd2
    simp at hd2
  · intro rs _ _ dm hfd e he
    refine foldDevices_entries
      (fun e => 0 ≤ e.2.availableCount ∧ e.2.availableCount ≤ e.2.totalCount) hfd
      (by simp) ?_ ?_ ?_ e he
    · intro k mem
      exact ⟨by norm_num, by norm_num⟩
    · intro k d2 hP
      dsimp only at hP ⊢
      omega
    · intro k d2 dev _ _ hP h0
      dsimp only at hP ⊢
      omega

/-- C6: a failure in any of the four fetches is returned as-is and no
node records are produced — the reconciliation result is exactly that
error, with no partial output. -/
theorem C6_fetch_error_aborts :
    (∀ (e : String) (ss : Except String (List ResourceSlice))
        (cs : Except String (List ResourceClaim)) (ps : Except String (List Pod)),
      GetK8sResources (Except.error e) ss cs ps = Except.error e) ∧
    (∀ (ns : List K8sNode) (e : String) (cs : Except String (List ResourceClaim))
        (ps : Except String (List Pod)),
      GetK8sResources (Except.ok ns) (Except.error e) cs ps = Except.error e) ∧
    (∀ (ns : List K8sNode) (ss : List ResourceSlice) (e : String)
        (ps : Except String (List Pod)),
      GetK8sResources (Except.ok ns) (Except.ok ss) (Except.error e) ps = Except.error e) ∧
    (∀ (ns : List K8sNode) (ss : List ResourceSlice) (cs : List ResourceClaim) (e : String),
      GetK8sResources (Except.ok ns) (Except.ok ss) (Except.ok cs) (Except.error e)
        = Except.error e) :=
  ⟨fun _ _ _ _ => rfl, fun _ _ _ _ => rfl, fun _ _ _ _ => rfl, fun _ _ _ _ => rfl⟩

/-- C7: the demand aggregation skips pods with an empty node assignment
entirely, and for assigned pods the table entry is the straight exact sum
of the resource requests of all containers of all pods on that node, with
absent resource types contributing zero. -/
theorem C7_demand_aggregation :
    (∀ (l1 : List Pod) (p : Pod) (l2 : List Pod), p.nodeName = "" →
      buildDemand (l1 ++ p :: l2) = buildDemand (l1 ++ l2)) ∧
    (∀ (pods : List Pod) (n r : String), n ≠ "" →
      demandOf (buildDemand pods) n r = demandSum pods n r) :=
  ⟨buildDemand_skips_unassigned, demandOf_buildDemand⟩

/-- C3 counterexample: one node with two slices of the same driver yields
two device summaries with the identical display key (displayName, memory)
in that node's record — the devices collection is not unique by display
key across slices. -/
theorem C3_counterexample :
    reconcile [K8sNode.mk "n" [] [] []]
        [ResourceSlice.mk "n" "d" "p" [Device.mk "x" none],
         ResourceSlice.mk "n" "d" "q" [Device.mk "y" none]] [] []
      = some [types.NodeInfo.mk "n" "<none>" (types.NodeCapacity.mk 0 0 0 0 0 0)
          [types.Device.mk "d" 1 1 0, types.Device.mk "d" 1 1 0]] ∧
    ¬ (([types.Device.mk "d" 1 1 0, types.Device.mk "d" 1 1 0].map
        (fun d => (d.productName, d.memory))).Nodup) :=
  ⟨by decide, by decide⟩

/-- C3 (amended): the device map accumulated for a single resource slice
is unique by product name — within one slice, devices with the same
product name merge into one tally; the merge does not extend across
slices of the same node. -/
theorem C3_per_slice_unique_by_product (alloc : List (String × List String))
    (sid driver : String) (devs : List Device) (dm : List (String × types.Device))
    (h : foldDevices alloc sid driver [] devs = some dm) :
    ((dm.map Prod.snd).map types.Device.productName).Nodup := by
  have hkeys : (keysA dm).Nodup := foldDevices_keysA_nodup h (by simp)
  have hpn : ∀ e ∈ dm, e.2.productName = e.1 :=
    foldDevices_entries (fun e => e.2.productName = e.1) h (by simp)
      (fun k mem => rfl) (fun k d hP => hP) (fun k d dev _ _ hP _ => hP)
  have hmapeq : (dm.map Prod.snd).map types.Device.productName = keysA dm := by
    rw [List.map_map]
    exact List.map_congr_left (fun e he => hpn e he)
  rw [hmapeq]
  exact hkeys

/-- C4: each output record carries the node's capacity fields verbatim as
totals, and available fields equal allocatable minus the exact summed pod
demand for that node (unchanged if no pod is scheduled there; the
subtraction is not clamped). -/
theorem C4_capacity_subtraction (nodes : List K8sNode) (slices : List ResourceSlice)
    (claims : List ResourceClaim) (pods : List Pod) (out : List types.NodeInfo)
    (node : K8sNode) (h : reconcile nodes slices claims pods = some out)
    (hnd : (nodes.map K8sNode.name).Nodup) (hmem : node ∈ nodes) (hne : node.name ≠ "") :
    ∃ r ∈ out, r.nodeName = node.name ∧
      r.nodeCapacity.totalCPU = getQuantity node.capacity cpuName ∧
      r.nodeCapacity.totalMemory = getQuantity node.capacity memoryName ∧
      r.nodeCapacity.totalStorage = getQuantity node.capacity storageName ∧
      r.nodeCapacity.availableCPU
        = getQuantity node.allocatable cpuName - demandSum pods node.name cpuName ∧
      r.nodeCapacity.availableMemory
        = getQuantity node.allocatable memoryName - demandSum pods node.name memoryName ∧
      r.nodeCapacity.availableStorage
        = getQuantity node.allocatable storageName - demandSum pods node.name storageName := by
  obtain ⟨m', hf, rfl⟩ := reconcile_eq_some h
  have hbl : lookupA node.name (buildNodeMap (buildDemand pods) nodes)
      = some (resolveNode (buildDemand pods) node) :=
    lookupA_buildNodeMap _ _ hnd hmem
  cases hml : lookupA node.name m' with
  | none =>
    exfalso
    rw [lookupA_eq_none_iff, foldSlices_keysA hf] at hml
    exact hml (mem_keysA_of_mem (lookupA_mem hbl))
  | some v =>
    obtain ⟨v0, hv0, hext⟩ := foldSlices_extends hf hml
    rw [hbl] at hv0
    obtain rfl := Option.some.inj hv0
    refine ⟨v, mem_map_snd.mpr ⟨node.name, lookupA_mem hml⟩, ?_, ?_, ?_, ?_, ?_, ?_, ?_⟩
    · rw [hext.1, resolveNode_nodeName]
    · rw [hext.2.2.1, (resolveNode_totals _ _).1]
    · rw [hext.2.2.1, (resolveNode_totals _ _).2.1]
    · rw [hext.2.2.1, (resolveNode_totals _ _).2.2]
    · rw [hext.2.2.1, (resolveNode_available _ _).1, demandOf_buildDemand _ _ _ hne]
    · rw [hext.2.2.1, (resolveNode_available _ _).2.1, demandOf_buildDemand _ _ _ hne]
    · rw [hext.2.2.1, (resolveNode_available _ _).2.2, demandOf_buildDemand _ _ _ hne]

/-- C5 counterexample: two nodes carrying identical driver, pool and
device names, and a single claim allocating that one device: the
availableCount drops to 0 on BOTH nodes' records, so per-node
availability is not independent — the allocation index has no node
identity in its key. -/
theorem C5_counterexample :
    reconcile [K8sNode.mk "n1" [] [] [], K8sNode.mk "n2" [] [] []]
        [ResourceSlice.mk "n1" "d" "p" [Device.mk "x" none],
         ResourceSlice.mk "n2" "d" "p" [Device.mk "x" none]]
        [ResourceClaim.mk (some [DeviceRequestAllocationResult.mk "d" "p" "x"])] []
      = some [types.NodeInfo.mk "n1" "<none>" (types.NodeCapacity.mk 0 0 0 0 0 0)
            [types.Device.mk "d" 1 0 0],
          types.NodeInfo.mk "n2" "<none>" (types.NodeCapacity.mk 0 0 0 0 0 0)
            [types.Device.mk "d" 1 0 0]] ∧
    (types.Device.mk "d" 1 0 0).availableCount ≠ (types.Device.mk "d" 1 0 0).totalCount :=
  ⟨by decide, by decide⟩

/-- C5 (amended): a node's availableCount is unaffected by the claims
whenever none of the claims' (driver, pool) composite keys equals the
composite key of any slice of that node; in particular two nodes are
independent exactly when their slices' composite keys differ. -/
theorem C5_independent_when_keys_disjoint (nodes : List K8sNode)
    (slices : List ResourceSlice) (claims : List ResourceClaim) (pods : List Pod)
    (out : List types.NodeInfo) (r : types.NodeInfo)
    (h : reconcile nodes slices claims pods = some out) (hr : r ∈ out)
    (hiso : ∀ rs ∈ slices, rs.nodeName = r.nodeName → ∀ rc ∈ claims, ∀ t ∈ resultsOf rc,
      sliceKey t.driver t.pool ≠ sliceKey rs.driver rs.poolName) :
    ∀ d ∈ r.devices, d.availableCount = d.totalCount := by
  obtain ⟨m', hf, rfl⟩ := reconcile_eq_some h
  intro d hd
  have hlook : lookupA r.nodeName m' = some r := out_mem_lookup hf hr
  refine foldSlices_node_devices_inv (fun d => d.availableCount = d.totalCount)
    r.nodeName hf ?_ ?_ r hlook d hd
  · intro v hv d2 hd2
    rw [buildNodeMap_devices_inv _ _ _ (lookupA_mem hv)] at hd2
    simp at hd2
  · intro rs hs hn dm hfd e he
    refine foldDevices_entries (fun e => e.2.availableCount = e.2.totalCount) hfd
      (by simp) (fun k mem => rfl) ?_ ?_ e he
    · intro k d2 hP
      dsimp only at hP ⊢
      omega
    · intro k d2 dev _ htrue _ _
      exfalso
      obtain ⟨rc, hrc, t, ht, hkey, _⟩ := (allocLookup_buildAllocated claims _ _).mp htrue
      exact hiso rs hs hn rc hrc t ht hkey

/-- C8: the string-concatenated composite key collides: a claim under
driver `a-b` pool `c` decrements a same-named device of a slice with
driver `a` pool `b-c`, and vice versa, because both map to the same
`sliceIdentifier` string. -/
theorem C8_composite_key_collision :
    sliceKey "a-b" "c" = sliceKey "a" "b-c" ∧
    reconcile [K8sNode.mk "n" [] [] []]
        [ResourceSlice.mk "n" "a" "b-c" [Device.mk "x" none]]
        [ResourceClaim.mk (some [DeviceRequestAllocationResult.mk "a-b" "c" "x"])] []
      = some [types.NodeInfo.mk "n" "<none>" (types.NodeCapacity.mk 0 0 0 0 0 0)
          [types.Device.mk "a" 1 0 0]] ∧
    reconcile [K8sNode.mk "n" [] [] []]
        [ResourceSlice.mk "n" "a-b" "c" [Device.mk "x" none]]
        [ResourceClaim.mk (some [DeviceRequestAllocationResult.mk "a" "b-c" "x"])] []
      = some [types.NodeInfo.mk "n" "<none>" (types.NodeCapacity.mk 0 0 0 0 0 0)
          [types.Device.mk "a-b" 1 0 0]] :=
  ⟨by decide, by decide, by decide⟩

/-- C9 failing input: for the special-cased driver `gpu.nvidia.com`, a
device carrying a `productName` attribute without a string value makes
the display-name resolution dereference a nil pointer — modelled as
`none` — so the reconciliation crashes instead of degrading to the
driver identifier. -/
theorem C9_nil_string_value_panics :
    reconcile [K8sNode.mk "n" [] [] []]
        [ResourceSlice.mk "n" "gpu.nvidia.com" "p"
          [Device.mk "g" (some (BasicDevice.mk [("productName", DeviceAttribute.mk none)] []))]]
        [] [] = none ∧
    resolveProductName "gpu.nvidia.com"
        (Device.mk "g" (some (BasicDevice.mk [("productName", DeviceAttribute.mk none)] [])))
      = none :=
  ⟨by decide, by decide⟩

/-- C10: duplicate allocation entries are idempotent — appending a claim
whose only result triple already occurs somewhere in the claims leaves
the reconciliation output unchanged, and repeating a triple inside one
claim's results is the same as listing it once, because the allocation
index stores device identifiers as a set per (driver, pool) key. -/
theorem C10_duplicate_allocations_idempotent :
    (∀ (nodes : List K8sNode) (slices : List ResourceSlice) (claims : List ResourceClaim)
        (pods : List Pod) (rc : ResourceClaim) (t : DeviceRequestAllocationResult),
      rc ∈ claims → t ∈ resultsOf rc →
      reconcile nodes slices (claims ++ [ResourceClaim.mk (some [t])]) pods
        = reconcile nodes slices claims pods) ∧
    (∀ (nodes : List K8sNode) (slices : List ResourceSlice) (claims : List ResourceClaim)
        (pods : List Pod) (t : DeviceRequestAllocationResult)
        (ts : List DeviceRequestAllocationResult),
      reconcile nodes slices (claims ++ [ResourceClaim.mk (some (t :: t :: ts))]) pods
        = reconcile nodes slices (claims ++ [ResourceClaim.mk (some (t :: ts))]) pods) := by
  constructor
  · intro nodes slices claims pods rc t hrc ht
    apply reconcile_alloc_congr
    intro k d
    apply bool_eq_of_iff
    rw [allocLookup_buildAllocated, allocLookup_buildAllocated]
    constructor
    · rintro ⟨rc2, hrc2, t2, ht2, hp⟩
      rcases List.mem_append.mp hrc2 with h2 | h2
      · exact ⟨rc2, h2, t2, ht2, hp⟩
      · have h3 : rc2 = ResourceClaim.mk (some [t]) := by simpa using h2
        subst h3
        have h4 : t2 = t := by simpa [resultsOf] using ht2
        subst h4
        exact ⟨rc, hrc, t2, ht, hp⟩
    · rintro ⟨rc2, hrc2, t2, ht2, hp⟩
      exact ⟨rc2, List.mem_append_left _ hrc2, t2, ht2, hp⟩
  · intro nodes slices claims pods t ts
    apply reconcile_alloc_congr
    intro k d
    apply bool_eq_of_iff
    rw [allocLookup_buildAllocated, allocLookup_buildAllocated]
    constructor
    · rintro ⟨rc2, hrc2, t2, ht2, hp⟩
      rcases List.mem_append.mp hrc2 with h2 | h2
      · exact ⟨rc2, List.mem_append_left _ h2, t2, ht2, hp⟩
      · have h3 : rc2 = ResourceClaim.mk (some (t :: t :: ts)) := by simpa using h2
        subst h3
        have h5 : t2 ∈ t :: ts := by
          have h4 : t2 ∈ t :: t :: ts := by simpa [resultsOf] using ht2
          simp only [List.mem_cons] at h4 ⊢
          tauto
        exact ⟨ResourceClaim.mk (some (t :: ts)), List.mem_append_right _ (by simp), t2,
          by simpa [resultsOf] using h5, hp⟩
    · rintro ⟨rc2, hrc2, t2, ht2, hp⟩
      rcases List.mem_append.mp hrc2 with h2 | h2
      · exact ⟨rc2, List.mem_append_left _ h2, t2, ht2, hp⟩
      · have h3 : rc2 = ResourceClaim.mk (some (t :: ts)) := by simpa using h2
        subst h3
        have h5 : t2 ∈ t :: t :: ts := by
          have h4 : t2 ∈ t :: ts := by simpa [resultsOf] using ht2
          simp only [List.mem_cons] at h4 ⊢
          tauto
        exact ⟨ResourceClaim.mk (some (t :: t :: ts)), List.mem_append_right _ (by simp), t2,
          by simpa [resultsOf] using h5, hp⟩

/-- Witness for C1 at a concrete one-node input. -/
theorem C1_witness :
    (([types.NodeInfo.mk "n1" "<none>" (types.NodeCapacity.mk 0 0 0 0 0 0) []].map
      types.NodeInfo.nodeName).Nodup) :=
  (C1_one_record_per_node [K8sNode.mk "n1" [] [] []] [] [] []
    [types.NodeInfo.mk "n1" "<none>" (types.NodeCapacity.mk 0 0 0 0 0 0) []]
    (by decide)).2.1

/-- Witness for C2 at a concrete input with one allocated device. -/
theorem C2_witness :
    0 ≤ (types.Device.mk "d" 2 1 0).availableCount ∧
      (types.Device.mk "d" 2 1 0).availableCount ≤ (types.Device.mk "d" 2 1 0).totalCount :=
  C2_available_count_bounds [K8sNode.mk "n" [] [] []]
    [ResourceSlice.mk "n" "d" "p" [Device.mk "x" none, Device.mk "y" none]]
    [ResourceClaim.mk (some [DeviceRequestAllocationResult.mk "d" "p" "x"])] []
    [types.NodeInfo.mk "n" "<none>" (types.NodeCapacity.mk 0 0 0 0 0 0)
      [types.Device.mk "d" 2 1 0]]
    (by decide)
    (types.NodeInfo.mk "n" "<none>" (types.NodeCapacity.mk 0 0 0 0 0 0)
      [types.Device.mk "d" 2 1 0])
    (by decide) (types.Device.mk "d" 2 1 0) (by decide)

/-- Witness for the amended C3 at a concrete one-device slice. -/
theorem C3_witness :
    ((([("d", types.Device.mk "d" 1 1 0)].map Prod.snd).map types.Device.productName).Nodup) :=
  C3_per_slice_unique_by_product [] "d-p" "d" [Device.mk "x" none]
    [("d", types.Device.mk "d" 1 1 0)] (by decide)

/-- Witness for C4 at a concrete node with one pod demanding cpu 1 of
allocatable 3. -/
theorem C4_witness :
    ∃ r ∈ [types.NodeInfo.mk "n1" "<none>" (types.NodeCapacity.mk 4 2 0 0 0 0) []],
      r.nodeName = "n1" ∧
      r.nodeCapacity.totalCPU = (4 : Int) ∧ r.nodeCapacity.totalMemory = (0 : Int) ∧
      r.nodeCapacity.totalStorage = (0 : Int) ∧
      r.nodeCapacity.availableCPU = (3 : Int) - 1 ∧
      r.nodeCapacity.availableMemory = (0 : Int) - 0 ∧
      r.nodeCapacity.availableStorage = (0 : Int) - 0 :=
  C4_capacity_subtraction [K8sNode.mk "n1" [] [("cpu", 4)] [("cpu", 3)]] [] []
    [Pod.mk "n1" [Container.mk [("cpu", 1)]]]
    [types.NodeInfo.mk "n1" "<none>" (types.NodeCapacity.mk 4 2 0 0 0 0) []]
    (K8sNode.mk "n1" [] [("cpu", 4)] [("cpu", 3)])
    (by decide) (by decide) (by decide) (by decide)

/-- Witness for the amended C5: the node whose pool key is unclaimed
keeps full availability. -/
theorem C5_witness :
    (types.Device.mk "d" 1 1 0).availableCount = (types.Device.mk "d" 1 1 0).totalCount :=
  C5_independent_when_keys_disjoint
    [K8sNode.mk "n1" [] [] [], K8sNode.mk "n2" [] [] []]
    [ResourceSlice.mk "n1" "d" "p" [Device.mk "x" none],
     ResourceSlice.mk "n2" "d" "q" [Device.mk "x" none]]
    [ResourceClaim.mk (some [DeviceRequestAllocationResult.mk "d" "p" "x"])] []
    [types.NodeInfo.mk "n1" "<none>" (types.NodeCapacity.mk 0 0 0 0 0 0)
        [types.Device.mk "d" 1 0 0],
     types.NodeInfo.mk "n2" "<none>" (types.NodeCapacity.mk 0 0 0 0 0 0)
        [types.Device.mk "d" 1 1 0]]
    (types.NodeInfo.mk "n2" "<none>" (types.NodeCapacity.mk 0 0 0 0 0 0)
        [types.Device.mk "d" 1 1 0])
    (by decide) (by decide) (by decide) (types.Device.mk "d" 1 1 0) (by decide)

/-- Witness for C7 at a concrete unassigned pod and a concrete assigned
pod. -/
theorem C7_witness :
    buildDemand ([] ++ Pod.mk "" [Container.mk [("cpu", 5)]] :: []) = buildDemand ([] ++ []) ∧
    demandOf (buildDemand [Pod.mk "n" [Container.mk [("cpu", 2)]]]) "n" "cpu"
      = demandSum [Pod.mk "n" [Container.mk [("cpu", 2)]]] "n" "cpu" :=
  ⟨C7_demand_aggregation.1 [] (Pod.mk "" [Container.mk [("cpu", 5)]]) [] rfl,
   C7_demand_aggregation.2 [Pod.mk "n" [Container.mk [("cpu", 2)]]] "n" "cpu" (by decide)⟩

/-- Witness for C10: appending a duplicate of an existing allocation
triple leaves the output unchanged, at a concrete input. -/
theorem C10_witness :
    reconcile [] []
        ([ResourceClaim.mk (some [DeviceRequestAllocationResult.mk "d" "p" "x"])]
          ++ [ResourceClaim.mk (some [DeviceRequestAllocationResult.mk "d" "p" "x"])]) []
      = reconcile [] []
          [ResourceClaim.mk (some [DeviceRequestAllocationResult.mk "d" "p" "x"])] [] :=
  C10_duplicate_allocations_idempotent.1 [] []
    [ResourceClaim.mk (some [DeviceRequestAllocationResult.mk "d" "p" "x"])] []
    (ResourceClaim.mk (some [DeviceRequestAllocationResult.mk "d" "p" "x"]))
    (DeviceRequestAllocationResult.mk "d" "p" "x") (by decide) (by decide)

end K8sDRA
